import Mathlib

/-!
Shallow embedding of the Santase AI engine: the move-selection strategies of
`ai.py` (JustRandom, TrickBasedGreedy, Expectiminimax, and the MCTS legal-move
helper) together with the trick-winner rule of `gameplay.py`.  Python dicts
become a structure, Python lists stay lists (value semantics models the
source's deep copies), fallible operations return `Option`, floats become `ℚ`,
and the random number source is made explicit as a choice-function parameter.
-/

/-- Card ranks of the 24-card Santase deck; point values are in
`CARD_VALUES` below, mirroring `constants.py`. -/
inductive Rank
  | nine | jack | queen | king | ten | ace
  deriving DecidableEq, Fintype, Inhabited

/-- The four suits, written "H", "D", "C", "S" in the source. -/
inductive Suit
  | H | D | C | S
  deriving DecidableEq, Fintype, Inhabited

/-- A card is a (rank, suit) pair, as the Python tuples `(rank, suit)`. -/
abbrev Card := Rank × Suit

/-- Card point values for trick scoring (`constants.py` CARD_VALUES). -/
def CARD_VALUES : Rank → Nat
  | .nine => 0
  | .jack => 2
  | .queen => 3
  | .king => 4
  | .ten => 10
  | .ace => 11

/-- The full 24-card deck in the construction order used by
`Expectiminimax.sample_possible_player_hand` (suits H, D, C, S; ranks
9, J, Q, K, 10, A). -/
def full_deck : List Card :=
  [Suit.H, Suit.D, Suit.C, Suit.S].flatMap (fun s =>
    [Rank.nine, Rank.jack, Rank.queen, Rank.king, Rank.ten, Rank.ace].map
      (fun r => (r, s)))

/-- The two seats as named in the `ai.py` state dictionaries
("player" is the human, "opponent" is the AI). -/
inductive Actor
  | player | opponent
  deriving DecidableEq, Fintype, Inhabited

/-- The two seats as named in `gameplay.py` ("player" / "computer"). -/
inductive Side
  | player | computer
  deriving DecidableEq, Fintype, Inhabited

/-- The game-state snapshot dictionary handed to the search strategies in
`ai.py`.  A key that may be absent or `None` in Python becomes an `Option`;
the `player_known_cards` key defaulting to an absent entry is modelled as the
empty list (every read of it in the source treats the two identically). -/
structure SState where
  player_hand : List Card
  opponent_hand : List Card
  player_played : Option Card
  opponent_played : Option Card
  allowed_suit : Option Suit
  leader_card : Option Card
  current_leader : Actor
  trump_suit : Suit
  trump_card : Option Card
  remaining_deck : List Card
  player_round_points : Int
  opponent_round_points : Int
  player_known_cards : List Card
  deriving DecidableEq, Inhabited

/-- Embeds `Expectiminimax.get_valid_moves` (ai.py lines 202-213): follow the led
suit if possible, otherwise trump if possible, otherwise the whole hand. -/
def Expectiminimax.get_valid_moves (hand : List Card) (allowed_suit : Option Suit)
    (trump_suit : Suit) : List Card :=
  match allowed_suit with
  | some s =>
      let moves := hand.filter (fun c => decide (c.2 = s))
      if moves ≠ [] then moves
      else
        let moves2 := hand.filter (fun c => decide (c.2 = trump_suit))
        if moves2 ≠ [] then moves2 else hand
  | none => hand

/-- Embeds `MCTS._get_valid_moves` (ai.py lines 512-524): the same rule, reading the
hand and suits out of the state dictionary. -/
def MCTS.get_valid_moves (state : SState) : List Card :=
  match state.allowed_suit with
  | some s =>
      let moves := state.opponent_hand.filter (fun c => decide (c.2 = s))
      if moves ≠ [] then moves
      else
        let moves2 := state.opponent_hand.filter (fun c => decide (c.2 = state.trump_suit))
        if moves2 ≠ [] then moves2 else state.opponent_hand
  | none => state.opponent_hand

/-- The legal-move set in the spec's words: all cards when no suit is led;
otherwise exactly the led-suit cards if any; otherwise exactly the trump
cards if any; otherwise the whole hand. -/
def legalMovesSpec (hand : List Card) (ledSuit : Option Suit) (trumpSuit : Suit) :
    List Card :=
  match ledSuit with
  | none => hand
  | some s =>
      if hand.any (fun c => decide (c.2 = s)) then
        hand.filter (fun c => decide (c.2 = s))
      else if hand.any (fun c => decide (c.2 = trumpSuit)) then
        hand.filter (fun c => decide (c.2 = trumpSuit))
      else hand

/-- Embeds `JustRandom.play` (ai.py lines 15-39).  `random.choice(valid_moves)` is
modelled by an arbitrary index `k`, reduced modulo the list length; the
`return None` on an empty hand becomes `none`. -/
def JustRandom.play (k : Nat) (state : SState) (hand : List Card) : Option Card :=
  if hand = [] then none
  else
    let valid_moves :=
      match state.allowed_suit with
      | some s =>
          if hand.any (fun c => decide (c.2 = s)) then
            hand.filter (fun c => decide (c.2 = s))
          else if hand.any (fun c => decide (c.2 = state.trump_suit)) then
            hand.filter (fun c => decide (c.2 = state.trump_suit))
          else hand
      | none => hand
    let valid_moves := if valid_moves = [] then hand else valid_moves
    valid_moves[k % valid_moves.length]?

/-- Embeds `TrickBasedGreedy.card_wins` (ai.py lines 102-117): does `card` beat
`leader_card` given the trump suit and the led suit? -/
def TrickBasedGreedy.card_wins (card leader_card : Card) (trump_suit lead_suit : Suit) :
    Bool :=
  if card.2 = trump_suit ∧ leader_card.2 ≠ trump_suit then true
  else if leader_card.2 = trump_suit ∧ card.2 ≠ trump_suit then false
  else if card.2 ≠ lead_suit then false
  else decide (CARD_VALUES leader_card.1 < CARD_VALUES card.1)

/-- Insert a card into a value-sorted list, before any later card of equal
value: together with `sortByValue` this is the stable sort performed by
Python's `sorted(hand, key=lambda c: CARD_VALUES[c[0]])`. -/
def insertByValue (c : Card) : List Card → List Card
  | [] => [c]
  | d :: ds =>
      if CARD_VALUES c.1 ≤ CARD_VALUES d.1 then c :: d :: ds
      else d :: insertByValue c ds

/-- Stable sort of a hand by ascending card point value. -/
def sortByValue : List Card → List Card
  | [] => []
  | c :: cs => insertByValue c (sortByValue cs)

/-- Python's `max(moves, key=lambda c: CARD_VALUES[c[0]])`: the first card of
maximal value, `none` on the empty list (where Python raises). -/
def maxByValue (l : List Card) : Option Card :=
  l.foldl (fun acc c =>
    match acc with
    | none => some c
    | some b => if CARD_VALUES b.1 < CARD_VALUES c.1 then some c else some b) none

/-- Python's `min(moves, key=lambda c: CARD_VALUES[c[0]])`: the first card of
minimal value, `none` on the empty list (where Python raises). -/
def minByValue (l : List Card) : Option Card :=
  l.foldl (fun acc c =>
    match acc with
    | none => some c
    | some b => if CARD_VALUES c.1 < CARD_VALUES b.1 then some c else some b) none

/-- Embeds `TrickBasedGreedy.play` (ai.py lines 54-100).  The result pairs the chosen
card with the caller's hand as it is left after the call, making the
in-place `hand.remove(best_card)` of the leading branch observable; `none`
models the exceptions Python raises on an empty hand. -/
def TrickBasedGreedy.play (state : SState) (hand : List Card) :
    Option (Card × List Card) :=
  match state.allowed_suit with
  | some allowed =>
      let valid_moves :=
        if hand.any (fun c => decide (c.2 = allowed)) then
          hand.filter (fun c => decide (c.2 = allowed))
        else if hand.any (fun c => decide (c.2 = state.trump_suit)) then
          hand.filter (fun c => decide (c.2 = state.trump_suit))
        else hand
      let beats : Card → Bool := fun c =>
        match state.leader_card with
        | some lc => TrickBasedGreedy.card_wins c lc state.trump_suit allowed
        | none => false
      let winning_moves := valid_moves.filter beats
      let losing_moves := valid_moves.filter (fun c => !(beats c))
      if winning_moves ≠ [] then
        (maxByValue winning_moves).map (fun c => (c, hand))
      else
        (minByValue losing_moves).map (fun c => (c, hand))
  | none =>
      let sorted_hand := sortByValue hand
      let median_index := sorted_hand.length / 2
      (sorted_hand[median_index]?).map (fun c => (c, hand.erase c))

/-- Embeds `Expectiminimax.simulate_move` (ai.py lines 215-238): apply a card for the
AI (`is_ai_turn = true`) or the human to a deep copy of the state. -/
def Expectiminimax.simulate_move (state : SState) (card : Card) (is_ai_turn : Bool) :
    SState :=
  if is_ai_turn then
    let st := { state with
      opponent_hand := state.opponent_hand.erase card
      opponent_played := some card }
    if st.player_played = none then
      { st with allowed_suit := some card.2, leader_card := some card,
                current_leader := Actor.opponent }
    else st
  else
    let st := { state with
      player_hand := state.player_hand.erase card
      player_played := some card
      player_known_cards := state.player_known_cards.erase card }
    if st.opponent_played = none then
      { st with allowed_suit := some card.2, leader_card := some card,
                current_leader := Actor.player }
    else st

/-- Embeds `Expectiminimax.simulate_player_move` (ai.py lines 240-255): like
`simulate_move` for the human, but substituting a sampled hand first. -/
def Expectiminimax.simulate_player_move (state : SState) (card : Card)
    (sampled_hand : List Card) : SState :=
  let st := { state with
    player_hand := sampled_hand.erase card
    player_known_cards := state.player_known_cards.erase card
    player_played := some card }
  if st.opponent_played = none then
    { st with allowed_suit := some card.2, leader_card := some card,
              current_leader := Actor.player }
  else st

/-- The candidate pool built by `sample_possible_player_hand` (ai.py lines
261-281): the full deck minus every card known to the AI — its own hand, the
trump indicator, both played cards, the remaining stock deck and the
positively-known opponent cards.  The Python set `known` is kept as a list,
only membership in it is ever used. -/
def Expectiminimax.unknown_cards (state : SState) : List Card :=
  let known : List Card :=
    state.opponent_hand ++ state.trump_card.toList ++ state.player_played.toList ++
      state.opponent_played.toList ++ state.remaining_deck ++ state.player_known_cards
  full_deck.filter (fun c => decide (c ∉ known))

/-- Embeds `Expectiminimax.sample_possible_player_hand` (ai.py lines 257-290).
`random.sample(unknown, needed)` is modelled by the explicit choice function
`pick`. -/
def Expectiminimax.sample_possible_player_hand
    (pick : List Card → Nat → List Card) (state : SState) (hand_size : Nat) :
    List Card :=
  let unknown := Expectiminimax.unknown_cards state
  let sampled := state.player_known_cards
  let needed : Int := (hand_size : Int) - (sampled.length : Int)
  if 0 < needed ∧ needed ≤ (unknown.length : Int) then
    sampled ++ pick unknown needed.toNat
  else
    sampled ++ unknown

/-- Embeds `Expectiminimax.is_terminal` (ai.py lines 372-376). -/
def Expectiminimax.is_terminal (state : SState) : Bool :=
  state.player_hand.length = 0 ∧ state.opponent_hand.length = 0

/-- Embeds `Expectiminimax.evaluate` (ai.py lines 378-383): AI round points minus
human round points. -/
def Expectiminimax.evaluate (state : SState) : ℚ :=
  ((state.opponent_round_points - state.player_round_points : Int) : ℚ)

/-- The trick-winner determination inlined in
`Expectiminimax.resolve_trick_with_chance` (ai.py lines 302-313). -/
def Expectiminimax.trick_winner_of (pcard ocard : Card) (current_leader : Actor)
    (trump : Suit) : Actor :=
  if pcard.2 = trump ∧ ocard.2 ≠ trump then Actor.player
  else if ocard.2 = trump ∧ pcard.2 ≠ trump then Actor.opponent
  else if pcard.2 = ocard.2 then
    if CARD_VALUES ocard.1 ≤ CARD_VALUES pcard.1 then Actor.player else Actor.opponent
  else
    if current_leader = Actor.player then Actor.player else Actor.opponent

/-- The deterministic part of `resolve_trick_with_chance` (ai.py lines
297-327): score the completed trick, move the lead to the winner, and clear
the played-card slots.  Returns the updated state and the winner. -/
def Expectiminimax.post_trick_state (state : SState) (pcard ocard : Card) :
    SState × Actor :=
  let winner := Expectiminimax.trick_winner_of pcard ocard state.current_leader
    state.trump_suit
  let trick_points : Int := (CARD_VALUES pcard.1 : Int) + (CARD_VALUES ocard.1 : Int)
  let st :=
    if winner = Actor.player then
      { state with player_round_points := state.player_round_points + trick_points,
                   current_leader := Actor.player }
    else
      { state with opponent_round_points := state.opponent_round_points + trick_points,
                   current_leader := Actor.opponent }
  ({ st with player_played := none, opponent_played := none,
             allowed_suit := none, leader_card := none }, winner)

/-- The ordered pairs (i, j) of indices below `n` with `i ≠ j`, in the order
produced by the nested `for i ... for j ... if i == j: continue` loops of
`resolve_trick_with_chance`. -/
def index_pairs (n : Nat) : List (Nat × Nat) :=
  (List.range n).flatMap (fun i =>
    ((List.range n).filter (fun j => decide (j ≠ i))).map (fun j => (i, j)))

/-- One draw outcome of the chance node (ai.py lines 338-349): remove the two
drawn cards from the deck and append them to the winner's and loser's hands. -/
def Expectiminimax.draw_outcome (post : SState) (winner : Actor)
    (card_for_winner card_for_loser : Card) : SState :=
  let deck := (post.remaining_deck.erase card_for_winner).erase card_for_loser
  if winner = Actor.player then
    { post with remaining_deck := deck,
                player_hand := post.player_hand ++ [card_for_winner],
                opponent_hand := post.opponent_hand ++ [card_for_loser] }
  else
    { post with remaining_deck := deck,
                opponent_hand := post.opponent_hand ++ [card_for_winner],
                player_hand := post.player_hand ++ [card_for_loser] }

/-- All outcome states enumerated by the chance node when the deck holds at
least two cards (ai.py lines 333-353). -/
def Expectiminimax.chance_outcome_states (post : SState) (winner : Actor) :
    List SState :=
  let deck := post.remaining_deck
  (index_pairs deck.length).map (fun p =>
    Expectiminimax.draw_outcome post winner (deck.getD p.1 default) (deck.getD p.2 default))

/-- Embeds `Expectiminimax.resolve_trick_with_chance` (ai.py lines 292-370), with the
recursive `self.expectiminimax(·, depth - 1, ·)` call abstracted as the
continuation `val`.  The source is only ever called with both played-card
slots filled; on the impossible missing-card case (where Python would raise a
TypeError) the embedding returns 0. -/
def Expectiminimax.resolve_trick_with_chance (val : SState → Bool → ℚ)
    (state : SState) : ℚ :=
  match state.player_played, state.opponent_played with
  | some pcard, some ocard =>
      let pw := Expectiminimax.post_trick_state state pcard ocard
      let post := pw.1
      let winner := pw.2
      let deck := post.remaining_deck
      if deck ≠ [] then
        if 2 ≤ deck.length then
          let outcomes := (Expectiminimax.chance_outcome_states post winner).map
            (fun o => val o (o.current_leader = Actor.opponent))
          if outcomes ≠ [] then outcomes.sum / (outcomes.length : ℚ)
          else Expectiminimax.evaluate post
        else
          let card := deck.getD 0 default
          let o :=
            if winner = Actor.player then
              { post with remaining_deck := post.remaining_deck.erase card,
                          player_hand := post.player_hand ++ [card] }
            else
              { post with remaining_deck := post.remaining_deck.erase card,
                          opponent_hand := post.opponent_hand ++ [card] }
          val o (o.current_leader = Actor.opponent)
      else
        val post (post.current_leader = Actor.opponent)
  | _, _ => 0

/-- Embeds `Expectiminimax.expectiminimax` (ai.py lines 161-200), by structural
recursion on the ply budget `depth`.  `pick` models the random sampling
inside `sample_possible_player_hand` and `nSamples` is
`self.n_player_samples`. -/
def Expectiminimax.expectiminimax (pick : List Card → Nat → List Card)
    (nSamples : Nat) : Nat → SState → Bool → ℚ
  | 0, state, _ => Expectiminimax.evaluate state
  | d + 1, state, is_ai_turn =>
    if Expectiminimax.is_terminal state then Expectiminimax.evaluate state
    else if state.player_played.isSome ∧ state.opponent_played.isSome then
      Expectiminimax.resolve_trick_with_chance
        (fun s b => Expectiminimax.expectiminimax pick nSamples d s b) state
    else if is_ai_turn then
      match Expectiminimax.get_valid_moves state.opponent_hand state.allowed_suit
          state.trump_suit with
      | [] => Expectiminimax.evaluate state
      | m :: ms =>
          let f := fun mv => Expectiminimax.expectiminimax pick nSamples d
            (Expectiminimax.simulate_move state mv true) false
          (ms.map f).foldl max (f m)
    else
      let sample_values := (List.range nSamples).map (fun _ =>
        let sampled := Expectiminimax.sample_possible_player_hand pick state
          state.player_hand.length
        match Expectiminimax.get_valid_moves sampled state.allowed_suit
            state.trump_suit with
        | [] => Expectiminimax.evaluate state
        | m :: ms =>
            let g := fun mv => Expectiminimax.expectiminimax pick nSamples d
              (Expectiminimax.simulate_player_move state mv sampled) true
            (ms.map g).foldl min (g m))
      if sample_values ≠ [] then sample_values.sum / (sample_values.length : ℚ)
      else Expectiminimax.evaluate state

/-- The body of the move-selection loop in `Expectiminimax.play` (ai.py lines
141-151): keep the incumbent best (move, value) pair, replacing it when the
new move's value is strictly greater; `none` is the initial
`best_move = None / best_value = -inf` pair. -/
def Expectiminimax.play_step (value_of : Card → ℚ) (acc : Option (Card × ℚ))
    (move : Card) : Option (Card × ℚ) :=
  match acc with
  | none => some (move, value_of move)
  | some (bm, bv) =>
      if bv < value_of move then some (move, value_of move) else some (bm, bv)

/-- Embeds `Expectiminimax.play` (ai.py lines 136-159): try every valid move, keep
the first one whose value strictly beats the best so far (starting from
negative infinity, modelled by the `none` accumulator), and fall back to a
random choice (index `k`) if no move was recorded. -/
def Expectiminimax.play (pick : List Card → Nat → List Card)
    (nSamples maxDepth k : Nat) (state : SState) (hand : List Card) : Option Card :=
  let valid_moves := Expectiminimax.get_valid_moves hand state.allowed_suit
    state.trump_suit
  let value_of : Card → ℚ := fun move =>
    let new_state := Expectiminimax.simulate_move state move true
    if new_state.player_played.isSome ∧ new_state.opponent_played.isSome then
      Expectiminimax.resolve_trick_with_chance
        (fun s b => Expectiminimax.expectiminimax pick nSamples (maxDepth - 1) s b)
        new_state
    else
      Expectiminimax.expectiminimax pick nSamples (maxDepth - 1) new_state false
  let best := valid_moves.foldl (Expectiminimax.play_step value_of) none
  match best with
  | some (bm, _) => some bm
  | none => valid_moves[k % valid_moves.length]?

/-- Embeds `GamePlay.determine_trick_winner` (gameplay.py lines 612-666): role
assignment from the current leader, then trump dominance, then
failure-to-follow, then point comparison with ties to the leader. -/
def GamePlay.determine_trick_winner (current_leader : Side) (trump : Suit)
    (player_card computer_card : Card) : Side :=
  let leader_card := if current_leader = Side.player then player_card else computer_card
  let follower_card := if current_leader = Side.player then computer_card else player_card
  let leader := current_leader
  let follower := if current_leader = Side.player then Side.computer else Side.player
  let lead_suit := leader_card.2
  if leader_card.2 = trump ∧ follower_card.2 ≠ trump then leader
  else if follower_card.2 = trump ∧ leader_card.2 ≠ trump then follower
  else if follower_card.2 ≠ lead_suit then leader
  else if CARD_VALUES follower_card.1 ≤ CARD_VALUES leader_card.1 then leader
  else follower

/-- Modelled from the spec's trick-winner rule, for comparison with the code:
true when the leader's card wins.  Trump beats non-trump unconditionally; if
both or neither card is trump and the follower's suit differs from the
leader's suit, the leader wins; otherwise the higher point value wins, with
equal values favouring the leader. -/
def trickWinnerSpecLeaderWins (leader_card follower_card : Card) (trump : Suit) :
    Bool :=
  if leader_card.2 = trump ∧ follower_card.2 ≠ trump then true
  else if follower_card.2 = trump ∧ leader_card.2 ≠ trump then false
  else if follower_card.2 ≠ leader_card.2 then true
  else decide (CARD_VALUES follower_card.1 ≤ CARD_VALUES leader_card.1)

/-- The winning card of a trick as computed through
`TrickBasedGreedy.card_wins`, holding the lead suit as an independent
parameter: the follower's card if it beats the leader's, else the leader's. -/
def winnerByCardWins (leader_card follower_card : Card) (trump lead_suit : Suit) :
    Card :=
  if TrickBasedGreedy.card_wins follower_card leader_card trump lead_suit then
    follower_card
  else leader_card

/-! ### Helper lemmas about the legal-move computation -/

lemma filter_ne_nil_iff_any (l : List Card) (p : Card → Bool) :
    l.filter p ≠ [] ↔ l.any p = true := by
  rw [Ne, List.filter_eq_nil_iff, List.any_eq_true]
  push_neg
  exact Iff.rfl

lemma movesAux_eq_get_valid_moves (hand : List Card) (s t : Suit) :
    (if hand.any (fun c => decide (c.2 = s)) then hand.filter (fun c => decide (c.2 = s))
     else if hand.any (fun c => decide (c.2 = t)) then hand.filter (fun c => decide (c.2 = t))
     else hand) = Expectiminimax.get_valid_moves hand (some s) t := by
  have a1 := filter_ne_nil_iff_any hand (fun c => decide (c.2 = s))
  have a2 := filter_ne_nil_iff_any hand (fun c => decide (c.2 = t))
  simp only [Expectiminimax.get_valid_moves]
  by_cases h1 : hand.filter (fun c => decide (c.2 = s)) = []
  · have b1 : hand.any (fun c => decide (c.2 = s)) ≠ true := fun hb => (a1.mpr hb) h1
    by_cases h2 : hand.filter (fun c => decide (c.2 = t)) = []
    · have b2 : hand.any (fun c => decide (c.2 = t)) ≠ true := fun hb => (a2.mpr hb) h2
      simp [h1, h2, b1, b2]
    · have b2 : hand.any (fun c => decide (c.2 = t)) = true := a2.mp h2
      simp [h1, h2, b1, b2]
  · have b1 : hand.any (fun c => decide (c.2 = s)) = true := a1.mp h1
    simp [h1, b1]

lemma get_valid_moves_ne_nil {hand : List Card} (h : hand ≠ []) (a : Option Suit)
    (t : Suit) : Expectiminimax.get_valid_moves hand a t ≠ [] := by
  cases a with
  | none => simpa [Expectiminimax.get_valid_moves] using h
  | some s =>
      rw [Expectiminimax.get_valid_moves]
      by_cases h1 : hand.filter (fun c => decide (c.2 = s)) ≠ []
      · simp [h1]
      · by_cases h2 : hand.filter (fun c => decide (c.2 = t)) ≠ [] <;> simp [h1, h2, h]

lemma mem_get_valid_moves {hand : List Card} {a : Option Suit} {t : Suit} {c : Card}
    (h : c ∈ Expectiminimax.get_valid_moves hand a t) : c ∈ hand := by
  cases a with
  | none => simpa [Expectiminimax.get_valid_moves] using h
  | some s =>
      rw [Expectiminimax.get_valid_moves] at h
      by_cases h1 : hand.filter (fun c => decide (c.2 = s)) ≠ []
      · rw [if_pos h1] at h; exact (List.mem_filter.mp h).1
      · rw [if_neg h1] at h
        by_cases h2 : hand.filter (fun c => decide (c.2 = t)) ≠ []
        · rw [if_pos h2] at h; exact (List.mem_filter.mp h).1
        · rwa [if_neg h2] at h

lemma mcts_eq_get_valid_moves (state : SState) :
    MCTS.get_valid_moves state =
      Expectiminimax.get_valid_moves state.opponent_hand state.allowed_suit
        state.trump_suit := by
  rw [MCTS.get_valid_moves.eq_def, Expectiminimax.get_valid_moves.eq_def]

/-- Claim C6: the legal-move set equals the whole hand when no suit is led;
otherwise exactly the led-suit cards when the hand has any; otherwise exactly
the trump-suit cards when the hand has any; otherwise the whole hand — for
`Expectiminimax.get_valid_moves` and for `MCTS._get_valid_moves`. -/
theorem C6_legal_move_set (hand : List Card) (led : Option Suit) (trump : Suit)
    (state : SState) :
    Expectiminimax.get_valid_moves hand led trump = legalMovesSpec hand led trump ∧
    MCTS.get_valid_moves state =
      legalMovesSpec state.opponent_hand state.allowed_suit state.trump_suit := by
  constructor
  · cases led with
    | none => rfl
    | some s => rw [legalMovesSpec]; exact (movesAux_eq_get_valid_moves hand s trump).symm
  · rw [mcts_eq_get_valid_moves]
    cases h : state.allowed_suit with
    | none => rfl
    | some s =>
        rw [legalMovesSpec]
        exact (movesAux_eq_get_valid_moves state.opponent_hand s state.trump_suit).symm

/-! ### Helper lemmas about the stable sort -/

lemma insertByValue_perm (c : Card) (l : List Card) :
    (insertByValue c l).Perm (c :: l) := by
  induction l with
  | nil => simp [insertByValue]
  | cons d ds ih =>
      rw [insertByValue]
      by_cases h : CARD_VALUES c.1 ≤ CARD_VALUES d.1
      · rw [if_pos h]
      · rw [if_neg h]
        exact (ih.cons d).trans (List.Perm.swap c d ds)

lemma sortByValue_perm (l : List Card) : (sortByValue l).Perm l := by
  induction l with
  | nil => rfl
  | cons c cs ih => exact (insertByValue_perm c (sortByValue cs)).trans (ih.cons c)

lemma sortByValue_length (l : List Card) : (sortByValue l).length = l.length :=
  (sortByValue_perm l).length_eq

lemma insertByValue_sorted {l : List Card} (c : Card)
    (hl : l.Pairwise (fun a b => CARD_VALUES a.1 ≤ CARD_VALUES b.1)) :
    (insertByValue c l).Pairwise (fun a b => CARD_VALUES a.1 ≤ CARD_VALUES b.1) := by
  induction l with
  | nil => simp [insertByValue]
  | cons d ds ih =>
      rw [List.pairwise_cons] at hl
      rw [insertByValue]
      by_cases h : CARD_VALUES c.1 ≤ CARD_VALUES d.1
      · rw [if_pos h, List.pairwise_cons]
        refine ⟨?_, List.pairwise_cons.mpr hl⟩
        intro x hx
        rcases List.mem_cons.mp hx with rfl | hx
        · exact h
        · exact le_trans h (hl.1 x hx)
      · rw [if_neg h, List.pairwise_cons]
        refine ⟨?_, ih hl.2⟩
        intro x hx
        have hx2 := (insertByValue_perm c ds).mem_iff.mp hx
        rcases List.mem_cons.mp hx2 with rfl | hx2
        · exact le_of_not_le h
        · exact hl.1 x hx2

lemma sortByValue_sorted (l : List Card) :
    (sortByValue l).Pairwise (fun a b => CARD_VALUES a.1 ≤ CARD_VALUES b.1) := by
  induction l with
  | nil => simp [sortByValue]
  | cons c cs ih => exact insertByValue_sorted c ih

lemma filter_insertByValue_eq (c : Card) (l : List Card) {v : Nat}
    (h : CARD_VALUES c.1 = v) :
    (insertByValue c l).filter (fun d => decide (CARD_VALUES d.1 = v)) =
      c :: l.filter (fun d => decide (CARD_VALUES d.1 = v)) := by
  induction l with
  | nil => simp [insertByValue, h]
  | cons d ds ih =>
      rw [insertByValue]
      by_cases hc : CARD_VALUES c.1 ≤ CARD_VALUES d.1
      · rw [if_pos hc, List.filter_cons, if_pos (by simpa using h)]
      · rw [if_neg hc]
        have hd : CARD_VALUES d.1 ≠ v := by omega
        simp [List.filter_cons, hd, ih]

lemma filter_insertByValue_ne (c : Card) (l : List Card) {v : Nat}
    (h : CARD_VALUES c.1 ≠ v) :
    (insertByValue c l).filter (fun d => decide (CARD_VALUES d.1 = v)) =
      l.filter (fun d => decide (CARD_VALUES d.1 = v)) := by
  induction l with
  | nil => simp [insertByValue, h]
  | cons d ds ih =>
      rw [insertByValue]
      by_cases hc : CARD_VALUES c.1 ≤ CARD_VALUES d.1
      · rw [if_pos hc, List.filter_cons, if_neg (by simpa using h)]
      · rw [if_neg hc, List.filter_cons, List.filter_cons]
        rw [ih]

lemma sortByValue_filter (l : List Card) (v : Nat) :
    (sortByValue l).filter (fun d => decide (CARD_VALUES d.1 = v)) =
      l.filter (fun d => decide (CARD_VALUES d.1 = v)) := by
  induction l with
  | nil => rfl
  | cons c cs ih =>
      rw [sortByValue]
      by_cases h : CARD_VALUES c.1 = v
      · rw [filter_insertByValue_eq c _ h, ih, List.filter_cons,
          if_pos (by simpa using h)]
      · rw [filter_insertByValue_ne c _ h, ih, List.filter_cons,
          if_neg (by simpa using h)]

/-! ### Helper lemmas about the min/max selections and the search loop -/

lemma maxByValue_aux (l : List Card) (b : Card) :
    ∃ m, l.foldl (fun acc c =>
        match acc with
        | none => some c
        | some b => if CARD_VALUES b.1 < CARD_VALUES c.1 then some c else some b)
        (some b) = some m ∧ (m ∈ l ∨ m = b) ∧
      CARD_VALUES b.1 ≤ CARD_VALUES m.1 ∧
      ∀ x ∈ l, CARD_VALUES x.1 ≤ CARD_VALUES m.1 := by
  induction l generalizing b with
  | nil => exact ⟨b, rfl, Or.inr rfl, le_refl _, by simp⟩
  | cons c cs ih =>
      by_cases h : CARD_VALUES b.1 < CARD_VALUES c.1
      · obtain ⟨m, hm, hmem, hble, hall⟩ := ih c
        refine ⟨m, ?_, ?_, ?_, ?_⟩
        · simpa [h] using hm
        · rcases hmem with hm2 | rfl
          · exact Or.inl (List.mem_cons_of_mem _ hm2)
          · exact Or.inl (List.mem_cons_self _ _)
        · exact le_trans (le_of_lt h) hble
        · intro x hx
          rcases List.mem_cons.mp hx with rfl | hx
          · exact hble
          · exact hall x hx
      · obtain ⟨m, hm, hmem, hble, hall⟩ := ih b
        refine ⟨m, ?_, ?_, hble, ?_⟩
        · simpa [h] using hm
        · rcases hmem with hm2 | rfl
          · exact Or.inl (List.mem_cons_of_mem _ hm2)
          · exact Or.inr rfl
        · intro x hx
          rcases List.mem_cons.mp hx with rfl | hx
          · exact le_trans (le_of_not_lt h) hble
          · exact hall x hx

lemma maxByValue_spec {l : List Card} (h : l ≠ []) :
    ∃ m, maxByValue l = some m ∧ m ∈ l ∧
      ∀ x ∈ l, CARD_VALUES x.1 ≤ CARD_VALUES m.1 := by
  match l, h with
  | c :: cs, _ =>
      obtain ⟨m, hm, hmem, hble, hall⟩ := maxByValue_aux cs c
      refine ⟨m, by simpa [maxByValue] using hm, ?_, ?_⟩
      · rcases hmem with hm2 | rfl
        · exact List.mem_cons_of_mem _ hm2
        · exact List.mem_cons_self _ _
      · intro x hx
        rcases List.mem_cons.mp hx with rfl | hx
        · exact hble
        · exact hall x hx

lemma minByValue_aux (l : List Card) (b : Card) :
    ∃ m, l.foldl (fun acc c =>
        match acc with
        | none => some c
        | some b => if CARD_VALUES c.1 < CARD_VALUES b.1 then some c else some b)
        (some b) = some m ∧ (m ∈ l ∨ m = b) ∧
      CARD_VALUES m.1 ≤ CARD_VALUES b.1 ∧
      ∀ x ∈ l, CARD_VALUES m.1 ≤ CARD_VALUES x.1 := by
  induction l generalizing b with
  | nil => exact ⟨b, rfl, Or.inr rfl, le_refl _, by simp⟩
  | cons c cs ih =>
      by_cases h : CARD_VALUES c.1 < CARD_VALUES b.1
      · obtain ⟨m, hm, hmem, hble, hall⟩ := ih c
        refine ⟨m, ?_, ?_, le_trans hble (le_of_lt h), ?_⟩
        · simpa [h] using hm
        · rcases hmem with hm2 | rfl
          · exact Or.inl (List.mem_cons_of_mem _ hm2)
          · exact Or.inl (List.mem_cons_self _ _)
        · intro x hx
          rcases List.mem_cons.mp hx with rfl | hx
          · exact hble
          · exact hall x hx
      · obtain ⟨m, hm, hmem, hble, hall⟩ := ih b
        refine ⟨m, ?_, ?_, hble, ?_⟩
        · simpa [h] using hm
        · rcases hmem with hm2 | rfl
          · exact Or.inl (List.mem_cons_of_mem _ hm2)
          · exact Or.inr rfl
        · intro x hx
          rcases List.mem_cons.mp hx with rfl | hx
          · exact le_trans hble (le_of_not_lt h)
          · exact hall x hx

lemma minByValue_spec {l : List Card} (h : l ≠ []) :
    ∃ m, minByValue l = some m ∧ m ∈ l ∧
      ∀ x ∈ l, CARD_VALUES m.1 ≤ CARD_VALUES x.1 := by
  match l, h with
  | c :: cs, _ =>
      obtain ⟨m, hm, hmem, hble, hall⟩ := minByValue_aux cs c
      refine ⟨m, by simpa [minByValue] using hm, ?_, ?_⟩
      · rcases hmem with hm2 | rfl
        · exact List.mem_cons_of_mem _ hm2
        · exact List.mem_cons_self _ _
      · intro x hx
        rcases List.mem_cons.mp hx with rfl | hx
        · exact hble
        · exact hall x hx

lemma play_step_fold_some (value_of : Card → ℚ) (l : List Card) (b : Card × ℚ) :
    ∃ r, l.foldl (Expectiminimax.play_step value_of) (some b) = some r ∧
      (r.1 ∈ l ∨ r.1 = b.1) := by
  induction l generalizing b with
  | nil => exact ⟨b, rfl, Or.inr rfl⟩
  | cons c cs ih =>
      rw [List.foldl_cons]
      by_cases h : b.2 < value_of c
      · obtain ⟨r, hr, hmem⟩ := ih (c, value_of c)
        refine ⟨r, ?_, ?_⟩
        · rw [← hr]
          congr 1
          simp [Expectiminimax.play_step, h]
        · rcases hmem with hm | hm
          · exact Or.inl (List.mem_cons_of_mem _ hm)
          · exact Or.inl (hm ▸ List.mem_cons_self _ _)
      · obtain ⟨r, hr, hmem⟩ := ih b
        refine ⟨r, ?_, ?_⟩
        · rw [← hr]
          congr 1
          simp [Expectiminimax.play_step, h]
        · rcases hmem with hm | hm
          · exact Or.inl (List.mem_cons_of_mem _ hm)
          · exact Or.inr hm

lemma play_fold_spec (value_of : Card → ℚ) {l : List Card} (h : l ≠ []) :
    ∃ r, l.foldl (Expectiminimax.play_step value_of) none = some r ∧ r.1 ∈ l := by
  match l, h with
  | c :: cs, _ =>
      rw [List.foldl_cons]
      obtain ⟨r, hr, hmem⟩ := play_step_fold_some value_of cs (c, value_of c)
      refine ⟨r, by simpa [Expectiminimax.play_step] using hr, ?_⟩
      rcases hmem with hm | hm
      · exact List.mem_cons_of_mem _ hm
      · exact hm ▸ List.mem_cons_self _ _

lemma justRandom_play_eq (k : Nat) (state : SState) (hand : List Card)
    (h : hand ≠ []) :
    JustRandom.play k state hand =
      (Expectiminimax.get_valid_moves hand state.allowed_suit
        state.trump_suit)[k % (Expectiminimax.get_valid_moves hand
          state.allowed_suit state.trump_suit).length]? := by
  have hvm := get_valid_moves_ne_nil h state.allowed_suit state.trump_suit
  cases hA : state.allowed_suit with
  | none =>
      rw [hA] at hvm
      simp only [JustRandom.play, if_neg h, hA]
      simp only [Expectiminimax.get_valid_moves]
  | some s =>
      rw [hA] at hvm
      simp only [JustRandom.play, if_neg h, hA]
      rw [movesAux_eq_get_valid_moves hand s state.trump_suit, if_neg hvm]

lemma filter_not_of_filter_nil {l : List Card} {p : Card → Bool}
    (h : l.filter p = []) : l.filter (fun c => !(p c)) = l := by
  rw [List.filter_eq_self]
  intro a ha
  have := List.filter_eq_nil_iff.mp h a ha
  simpa using this

/-- The chosen card and left-over hand of `TrickBasedGreedy.play` in following
mode: the max of the winning moves when some move wins, else the min of the
losing moves, the caller's hand unchanged either way. -/
lemma trickBasedGreedy_play_follow (state : SState) (hand : List Card)
    {allowed : Suit} (hA : state.allowed_suit = some allowed) :
    TrickBasedGreedy.play state hand =
      (let valid_moves := Expectiminimax.get_valid_moves hand (some allowed)
        state.trump_suit
      let beats : Card → Bool := fun c =>
        match state.leader_card with
        | some lc => TrickBasedGreedy.card_wins c lc state.trump_suit allowed
        | none => false
      let winning_moves := valid_moves.filter beats
      let losing_moves := valid_moves.filter (fun c => !(beats c))
      if winning_moves ≠ [] then
        (maxByValue winning_moves).map (fun c => (c, hand))
      else
        (minByValue losing_moves).map (fun c => (c, hand))) := by
  simp only [TrickBasedGreedy.play, hA]
  rw [movesAux_eq_get_valid_moves hand allowed state.trump_suit]

/-- Claim C1: with a non-empty hand, the card returned by `JustRandom.play`,
`TrickBasedGreedy.play` and `Expectiminimax.play` is always an element of the
legal-move set computed by `get_valid_moves` from that hand, the led suit and
the trump suit. -/
theorem C1_strategies_return_legal_moves
    (pick : List Card → Nat → List Card) (nSamples maxDepth k : Nat)
    (state : SState) (hand : List Card) (h : hand ≠ []) :
    (∀ c, JustRandom.play k state hand = some c →
      c ∈ Expectiminimax.get_valid_moves hand state.allowed_suit state.trump_suit) ∧
    (∀ c rest, TrickBasedGreedy.play state hand = some (c, rest) →
      c ∈ Expectiminimax.get_valid_moves hand state.allowed_suit state.trump_suit) ∧
    (∀ c, Expectiminimax.play pick nSamples maxDepth k state hand = some c →
      c ∈ Expectiminimax.get_valid_moves hand state.allowed_suit state.trump_suit) := by
  refine ⟨?_, ?_, ?_⟩
  · intro c hc
    rw [justRandom_play_eq k state hand h] at hc
    exact List.getElem?_mem hc
  · intro c rest hc
    cases hA : state.allowed_suit with
    | none =>
        simp only [Expectiminimax.get_valid_moves]
        simp only [TrickBasedGreedy.play, hA, Option.map_eq_some'] at hc
        obtain ⟨m, hm, hpair⟩ := hc
        have hmem := List.getElem?_mem hm
        obtain rfl : m = c := congrArg Prod.fst hpair
        exact (sortByValue_perm hand).mem_iff.mp hmem
    | some allowed =>
        rw [trickBasedGreedy_play_follow state hand hA] at hc
        dsimp only at hc
        set valid_moves := Expectiminimax.get_valid_moves hand (some allowed)
          state.trump_suit with hv
        by_cases hw : (valid_moves.filter (fun c =>
            match state.leader_card with
            | some lc => TrickBasedGreedy.card_wins c lc state.trump_suit allowed
            | none => false)) ≠ []
        · rw [if_pos hw] at hc
          obtain ⟨m, hmax, hmem, -⟩ := maxByValue_spec hw
          rw [hmax] at hc
          simp only [Option.map_some', Option.some.injEq] at hc
          obtain rfl : m = c := congrArg Prod.fst hc
          exact (List.mem_filter.mp hmem).1
        · rw [if_neg hw] at hc
          rw [not_not] at hw
          rw [filter_not_of_filter_nil hw] at hc
          have hvne : valid_moves ≠ [] := get_valid_moves_ne_nil h _ _
          obtain ⟨m, hmin, hmem, -⟩ := minByValue_spec hvne
          rw [hmin] at hc
          simp only [Option.map_some', Option.some.injEq] at hc
          obtain rfl : m = c := congrArg Prod.fst hc
          exact hmem
  · intro c hc
    have hvm := get_valid_moves_ne_nil h state.allowed_suit state.trump_suit
    simp only [Expectiminimax.play] at hc
    obtain ⟨r, hr, hmem⟩ := play_fold_spec _ hvm
    rw [hr] at hc
    simp only [Option.some.injEq] at hc
    exact hc ▸ hmem

/-- A minimal concrete game state used by the concrete instances below. -/
def baseState : SState :=
  { player_hand := [], opponent_hand := [], player_played := none,
    opponent_played := none, allowed_suit := none, leader_card := none,
    current_leader := Actor.player, trump_suit := Suit.S, trump_card := none,
    remaining_deck := [], player_round_points := 0, opponent_round_points := 0,
    player_known_cards := [] }

/-- A concrete following-mode state: hearts led with the nine of hearts,
spades trump. -/
def followState : SState :=
  { baseState with allowed_suit := some Suit.H,
                   leader_card := some (Rank.nine, Suit.H) }

theorem C1_strategies_return_legal_moves_witness :
    (∀ c, JustRandom.play 0 followState
        [(Rank.king, Suit.H), (Rank.ace, Suit.H), (Rank.jack, Suit.C)] = some c →
      c ∈ Expectiminimax.get_valid_moves
        [(Rank.king, Suit.H), (Rank.ace, Suit.H), (Rank.jack, Suit.C)]
        followState.allowed_suit followState.trump_suit) ∧
    (∀ c rest, TrickBasedGreedy.play followState
        [(Rank.king, Suit.H), (Rank.ace, Suit.H), (Rank.jack, Suit.C)] =
          some (c, rest) →
      c ∈ Expectiminimax.get_valid_moves
        [(Rank.king, Suit.H), (Rank.ace, Suit.H), (Rank.jack, Suit.C)]
        followState.allowed_suit followState.trump_suit) ∧
    (∀ c, Expectiminimax.play (fun l n => l.take n) 1 1 0 followState
        [(Rank.king, Suit.H), (Rank.ace, Suit.H), (Rank.jack, Suit.C)] = some c →
      c ∈ Expectiminimax.get_valid_moves
        [(Rank.king, Suit.H), (Rank.ace, Suit.H), (Rank.jack, Suit.C)]
        followState.allowed_suit followState.trump_suit) :=
  C1_strategies_return_legal_moves (fun l n => l.take n) 1 1 0 followState
    [(Rank.king, Suit.H), (Rank.ace, Suit.H), (Rank.jack, Suit.C)] (by decide)

/-- Claim C8 (amended): with a non-empty hand, each of the three strategies'
`play` terminates with some card; the unrestricted claim fails on the empty
hand, see the counterexample. -/
theorem C8_play_total_on_nonempty_hand
    (pick : List Card → Nat → List Card) (nSamples maxDepth k : Nat)
    (state : SState) (hand : List Card) (h : hand ≠ []) :
    (JustRandom.play k state hand).isSome ∧
    (TrickBasedGreedy.play state hand).isSome ∧
    (Expectiminimax.play pick nSamples maxDepth k state hand).isSome := by
  have hvm := get_valid_moves_ne_nil h state.allowed_suit state.trump_suit
  have hlen : 0 < (Expectiminimax.get_valid_moves hand state.allowed_suit
      state.trump_suit).length := List.length_pos.mpr hvm
  refine ⟨?_, ?_, ?_⟩
  · rw [justRandom_play_eq k state hand h]
    rw [List.getElem?_eq_getElem (Nat.mod_lt _ hlen)]
    rfl
  · cases hA : state.allowed_suit with
    | none =>
        have hlen2 : hand.length / 2 < (sortByValue hand).length := by
          rw [sortByValue_length]
          exact Nat.div_lt_self (List.length_pos.mpr h) one_lt_two
        simp only [TrickBasedGreedy.play, hA, Option.isSome_map]
        rw [sortByValue_length, List.getElem?_eq_getElem
          (by rw [sortByValue_length] at hlen2 ⊢; exact hlen2)]
        rfl
    | some allowed =>
        rw [trickBasedGreedy_play_follow state hand hA]
        dsimp only
        set valid_moves := Expectiminimax.get_valid_moves hand (some allowed)
          state.trump_suit with hv
        rw [hA] at hvm
        by_cases hw : (valid_moves.filter (fun c =>
            match state.leader_card with
            | some lc => TrickBasedGreedy.card_wins c lc state.trump_suit allowed
            | none => false)) ≠ []
        · rw [if_pos hw]
          obtain ⟨m, hmax, -, -⟩ := maxByValue_spec hw
          rw [hmax]
          rfl
        · rw [if_neg hw]
          rw [not_not] at hw
          rw [filter_not_of_filter_nil hw]
          obtain ⟨m, hmin, -, -⟩ := minByValue_spec hvm
          rw [hmin]
          rfl
  · simp only [Expectiminimax.play]
    obtain ⟨r, hr, -⟩ := play_fold_spec _ hvm
    rw [hr]
    rfl

theorem C8_play_total_witness :
    (JustRandom.play 0 followState [(Rank.king, Suit.H)]).isSome ∧
    (TrickBasedGreedy.play followState [(Rank.king, Suit.H)]).isSome ∧
    (Expectiminimax.play (fun l n => l.take n) 1 1 0 followState
      [(Rank.king, Suit.H)]).isSome :=
  C8_play_total_on_nonempty_hand (fun l n => l.take n) 1 1 0 followState
    [(Rank.king, Suit.H)] (by decide)

/-- Claim C8, counterexample: called with an empty hand (an input the claim
as stated quantifies over), `JustRandom.play` returns Python's `None`
instead of a playable card. -/
theorem C8_counterexample_empty_hand :
    JustRandom.play 0 baseState [] = none := rfl

/-- Claim C10: `TrickBasedGreedy.play` leaves the caller's hand unchanged
when a suit is led (following mode) but removes the chosen card from the
caller's hand in place when leading. -/
theorem C10_trick_based_greedy_frame_effect (state : SState) (hand : List Card)
    (c : Card) (rest : List Card)
    (h : TrickBasedGreedy.play state hand = some (c, rest)) :
    (state.allowed_suit.isSome → rest = hand) ∧
    (state.allowed_suit = none → c ∈ hand ∧ rest = hand.erase c) := by
  constructor
  · intro hs
    obtain ⟨allowed, hA⟩ := Option.isSome_iff_exists.mp hs
    rw [trickBasedGreedy_play_follow state hand hA] at h
    dsimp only at h
    split at h
    · obtain ⟨m, -, hpair⟩ := Option.map_eq_some'.mp h
      exact (congrArg Prod.snd hpair).symm
    · obtain ⟨m, -, hpair⟩ := Option.map_eq_some'.mp h
      exact (congrArg Prod.snd hpair).symm
  · intro hA
    simp only [TrickBasedGreedy.play, hA, Option.map_eq_some'] at h
    obtain ⟨m, hm, hpair⟩ := h
    obtain rfl : m = c := congrArg Prod.fst hpair
    constructor
    · exact (sortByValue_perm hand).mem_iff.mp (List.getElem?_mem hm)
    · exact (congrArg Prod.snd hpair).symm

theorem C10_trick_based_greedy_frame_effect_witness :
    (baseState.allowed_suit.isSome → [(Rank.nine, Suit.H)] = [(Rank.nine, Suit.H),
      (Rank.ace, Suit.D)]) ∧
    (baseState.allowed_suit = none →
      (Rank.ace, Suit.D) ∈ [(Rank.nine, Suit.H), (Rank.ace, Suit.D)] ∧
      [(Rank.nine, Suit.H)] =
        [(Rank.nine, Suit.H), (Rank.ace, Suit.D)].erase (Rank.ace, Suit.D)) :=
  C10_trick_based_greedy_frame_effect baseState
    [(Rank.nine, Suit.H), (Rank.ace, Suit.D)] (Rank.ace, Suit.D)
    [(Rank.nine, Suit.H)] (by decide)

/-- Claim C7: with a non-empty hand, TrickBasedGreedy following a led suit
plays the highest-point legal move that beats the leader's card when one
exists and the lowest-point legal move otherwise (the hand left unchanged);
when leading it plays the card at index `hand.length / 2` of the hand sorted
ascending by point value with the stable sort (a sorted permutation whose
per-value filters coincide with the original hand's, i.e. preserving
original hand order on equal values). -/
theorem C7_trick_based_greedy_choice (state : SState) (hand : List Card)
    (h : hand ≠ []) :
    (∀ allowed lc, state.allowed_suit = some allowed →
      state.leader_card = some lc →
      ∃ c, TrickBasedGreedy.play state hand = some (c, hand) ∧
        c ∈ Expectiminimax.get_valid_moves hand (some allowed) state.trump_suit ∧
        ((∃ w ∈ Expectiminimax.get_valid_moves hand (some allowed) state.trump_suit,
            TrickBasedGreedy.card_wins w lc state.trump_suit allowed = true) →
          TrickBasedGreedy.card_wins c lc state.trump_suit allowed = true ∧
            ∀ w ∈ Expectiminimax.get_valid_moves hand (some allowed) state.trump_suit,
              TrickBasedGreedy.card_wins w lc state.trump_suit allowed = true →
                CARD_VALUES w.1 ≤ CARD_VALUES c.1) ∧
        ((∀ w ∈ Expectiminimax.get_valid_moves hand (some allowed) state.trump_suit,
            TrickBasedGreedy.card_wins w lc state.trump_suit allowed = false) →
          ∀ w ∈ Expectiminimax.get_valid_moves hand (some allowed) state.trump_suit,
            CARD_VALUES c.1 ≤ CARD_VALUES w.1)) ∧
    (state.allowed_suit = none →
      ∃ c, (sortByValue hand)[hand.length / 2]? = some c ∧
        TrickBasedGreedy.play state hand = some (c, hand.erase c) ∧
        (sortByValue hand).Pairwise
          (fun a b => CARD_VALUES a.1 ≤ CARD_VALUES b.1) ∧
        (sortByValue hand).Perm hand ∧
        ∀ v : Nat, (sortByValue hand).filter (fun d => decide (CARD_VALUES d.1 = v)) =
          hand.filter (fun d => decide (CARD_VALUES d.1 = v))) := by
  constructor
  · intro allowed lc hA hL
    rw [trickBasedGreedy_play_follow state hand hA]
    simp only [hL]
    set valid_moves := Expectiminimax.get_valid_moves hand (some allowed)
      state.trump_suit with hv
    by_cases hw : (valid_moves.filter (fun c =>
        TrickBasedGreedy.card_wins c lc state.trump_suit allowed)) ≠ []
    · obtain ⟨m, hmax, hmem, hall⟩ := maxByValue_spec hw
      refine ⟨m, ?_, ?_, ?_, ?_⟩
      · rw [if_pos hw, hmax]
        rfl
      · exact (List.mem_filter.mp hmem).1
      · intro _
        refine ⟨(List.mem_filter.mp hmem).2, ?_⟩
        intro w hwm hwin
        exact hall w (List.mem_filter.mpr ⟨hwm, hwin⟩)
      · intro hnone
        obtain ⟨x, hx⟩ := List.exists_mem_of_ne_nil _ hw
        have hx2 := List.mem_filter.mp hx
        rw [hnone x hx2.1] at hx2
        exact absurd hx2.2 (by simp)
    · rw [not_not] at hw
      have hvne : valid_moves ≠ [] := get_valid_moves_ne_nil h _ _
      obtain ⟨m, hmin, hmem, hall⟩ := minByValue_spec hvne
      refine ⟨m, ?_, hmem, ?_, ?_⟩
      · rw [if_neg (by simpa using hw), filter_not_of_filter_nil hw, hmin]
        rfl
      · intro hsome
        obtain ⟨w, hwm, hwin⟩ := hsome
        have := List.filter_eq_nil_iff.mp hw w hwm
        rw [hwin] at this
        exact absurd rfl this
      · intro _ w hwm
        exact hall w hwm
  · intro hA
    have hlen2 : hand.length / 2 < (sortByValue hand).length := by
      rw [sortByValue_length]
      exact Nat.div_lt_self (List.length_pos.mpr h) one_lt_two
    refine ⟨(sortByValue hand)[hand.length / 2], ?_, ?_, sortByValue_sorted hand,
      sortByValue_perm hand, sortByValue_filter hand⟩
    · exact List.getElem?_eq_getElem hlen2
    · simp only [TrickBasedGreedy.play, hA]
      rw [sortByValue_length, List.getElem?_eq_getElem
        (by rw [sortByValue_length] at hlen2 ⊢; exact hlen2)]
      rfl

theorem C7_trick_based_greedy_choice_witness :
    (∀ allowed lc, followState.allowed_suit = some allowed →
      followState.leader_card = some lc →
      ∃ c, TrickBasedGreedy.play followState [(Rank.king, Suit.H), (Rank.ace, Suit.H), (Rank.jack, Suit.C)] = some (c, [(Rank.king, Suit.H), (Rank.ace, Suit.H), (Rank.jack, Suit.C)]) ∧
        c ∈ Expectiminimax.get_valid_moves [(Rank.king, Suit.H), (Rank.ace, Suit.H), (Rank.jack, Suit.C)] (some allowed) followState.trump_suit ∧
        ((∃ w ∈ Expectiminimax.get_valid_moves [(Rank.king, Suit.H), (Rank.ace, Suit.H), (Rank.jack, Suit.C)] (some allowed) followState.trump_suit,
            TrickBasedGreedy.card_wins w lc followState.trump_suit allowed = true) →
          TrickBasedGreedy.card_wins c lc followState.trump_suit allowed = true ∧
            ∀ w ∈ Expectiminimax.get_valid_moves [(Rank.king, Suit.H), (Rank.ace, Suit.H), (Rank.jack, Suit.C)] (some allowed) followState.trump_suit,
              TrickBasedGreedy.card_wins w lc followState.trump_suit allowed = true →
                CARD_VALUES w.1 ≤ CARD_VALUES c.1) ∧
        ((∀ w ∈ Expectiminimax.get_valid_moves [(Rank.king, Suit.H), (Rank.ace, Suit.H), (Rank.jack, Suit.C)] (some allowed) followState.trump_suit,
            TrickBasedGreedy.card_wins w lc followState.trump_suit allowed = false) →
          ∀ w ∈ Expectiminimax.get_valid_moves [(Rank.king, Suit.H), (Rank.ace, Suit.H), (Rank.jack, Suit.C)] (some allowed) followState.trump_suit,
            CARD_VALUES c.1 ≤ CARD_VALUES w.1)) ∧
    (followState.allowed_suit = none →
      ∃ c, (sortByValue [(Rank.king, Suit.H), (Rank.ace, Suit.H), (Rank.jack, Suit.C)])[[(Rank.king, Suit.H), (Rank.ace, Suit.H), (Rank.jack, Suit.C)].length / 2]? = some c ∧
        TrickBasedGreedy.play followState [(Rank.king, Suit.H), (Rank.ace, Suit.H), (Rank.jack, Suit.C)] = some (c, [(Rank.king, Suit.H), (Rank.ace, Suit.H), (Rank.jack, Suit.C)].erase c) ∧
        (sortByValue [(Rank.king, Suit.H), (Rank.ace, Suit.H), (Rank.jack, Suit.C)]).Pairwise
          (fun a b => CARD_VALUES a.1 ≤ CARD_VALUES b.1) ∧
        (sortByValue [(Rank.king, Suit.H), (Rank.ace, Suit.H), (Rank.jack, Suit.C)]).Perm [(Rank.king, Suit.H), (Rank.ace, Suit.H), (Rank.jack, Suit.C)] ∧
        ∀ v : Nat, (sortByValue [(Rank.king, Suit.H), (Rank.ace, Suit.H), (Rank.jack, Suit.C)]).filter (fun d => decide (CARD_VALUES d.1 = v)) =
          [(Rank.king, Suit.H), (Rank.ace, Suit.H), (Rank.jack, Suit.C)].filter (fun d => decide (CARD_VALUES d.1 = v))) :=
  C7_trick_based_greedy_choice followState
    [(Rank.king, Suit.H), (Rank.ace, Suit.H), (Rank.jack, Suit.C)] (by decide)

/-- Mutual disjointness of the known-card fields of a state, as hypothesised
by claim C2: the AI's own hand, the trump indicator, the two played cards,
the remaining stock deck and the positively-known opponent cards do not
overlap pairwise. -/
def knownFieldsDisjoint (s : SState) : Prop :=
  [s.opponent_hand, s.trump_card.toList, s.player_played.toList,
    s.opponent_played.toList, s.remaining_deck,
    s.player_known_cards].Pairwise (fun l1 l2 => ∀ a ∈ l1, a ∉ l2)

instance (s : SState) : Decidable (knownFieldsDisjoint s) := by
  unfold knownFieldsDisjoint
  infer_instance

lemma mem_unknown_cards {s : SState} {c : Card}
    (h : c ∈ Expectiminimax.unknown_cards s) :
    c ∉ s.opponent_hand ∧ s.trump_card ≠ some c ∧ s.player_played ≠ some c ∧
      s.opponent_played ≠ some c ∧ c ∉ s.remaining_deck ∧
      c ∉ s.player_known_cards := by
  have h2 := List.mem_filter.mp h
  have h3 : c ∉ s.opponent_hand ++ s.trump_card.toList ++ s.player_played.toList ++
      s.opponent_played.toList ++ s.remaining_deck ++ s.player_known_cards := by
    simpa using h2.2
  simp only [List.mem_append, not_or] at h3
  refine ⟨h3.1.1.1.1.1, ?_, ?_, ?_, h3.1.2, h3.2⟩
  · intro he
    exact h3.1.1.1.1.2 (by simp [← he])
  · intro he
    exact h3.1.1.1.2 (by simp [← he])
  · intro he
    exact h3.1.1.2 (by simp [← he])

/-- Claim C2 (amended): under mutually disjoint known-card fields and the
random-sample contract, every card of the sampled hand avoids the AI's own
hand, the trump indicator, the played cards and the stock deck; and the
sample's size equals the requested size whenever the seeded known cards
number strictly fewer than the target and the unknown pool covers the
difference (when the seeded cards already reach the target, the code
appends the entire unknown pool instead — see the counterexample). -/
theorem C2_sample_possible_player_hand
    (pick : List Card → Nat → List Card) (state : SState) (hand_size : Nat)
    (hdisj : knownFieldsDisjoint state)
    (hpick : ∀ l n, n ≤ l.length → (pick l n).length = n ∧ ∀ c ∈ pick l n, c ∈ l) :
    (∀ c ∈ Expectiminimax.sample_possible_player_hand pick state hand_size,
      c ∉ state.opponent_hand ∧ state.trump_card ≠ some c ∧
      state.player_played ≠ some c ∧ state.opponent_played ≠ some c ∧
      c ∉ state.remaining_deck) ∧
    (state.player_known_cards.length < hand_size →
      hand_size - state.player_known_cards.length ≤
        (Expectiminimax.unknown_cards state).length →
      (Expectiminimax.sample_possible_player_hand pick state hand_size).length =
        hand_size) := by
  have hknown : ∀ c ∈ state.player_known_cards,
      c ∉ state.opponent_hand ∧ state.trump_card ≠ some c ∧
      state.player_played ≠ some c ∧ state.opponent_played ≠ some c ∧
      c ∉ state.remaining_deck := by
    intro c hc
    unfold knownFieldsDisjoint at hdisj
    simp only [List.pairwise_cons, List.mem_cons, List.not_mem_nil] at hdisj
    obtain ⟨d1, d2, d3, d4, d5, -⟩ := hdisj
    refine ⟨?_, ?_, ?_, ?_, ?_⟩
    · intro hmem
      exact d1 state.player_known_cards (by simp) c hmem hc
    · intro he
      exact d2 state.player_known_cards (by simp) c (by simp [← he]) hc
    · intro he
      exact d3 state.player_known_cards (by simp) c (by simp [← he]) hc
    · intro he
      exact d4 state.player_known_cards (by simp) c (by simp [← he]) hc
    · intro hmem
      exact d5 state.player_known_cards (by simp) c hmem hc
  constructor
  · intro c hc
    unfold Expectiminimax.sample_possible_player_hand at hc
    dsimp only at hc
    by_cases hcond : (0 : Int) < (hand_size : Int) - state.player_known_cards.length ∧
        (hand_size : Int) - state.player_known_cards.length ≤
          ((Expectiminimax.unknown_cards state).length : Int)
    · rw [if_pos hcond] at hc
      rcases List.mem_append.mp hc with hc2 | hc2
      · exact hknown c hc2
      · have hle : ((hand_size : Int) -
            state.player_known_cards.length).toNat ≤
            (Expectiminimax.unknown_cards state).length := by omega
        have hmem := (hpick _ _ hle).2 c hc2
        obtain ⟨u1, u2, u3, u4, u5, -⟩ := mem_unknown_cards hmem
        exact ⟨u1, u2, u3, u4, u5⟩
    · rw [if_neg hcond] at hc
      rcases List.mem_append.mp hc with hc2 | hc2
      · exact hknown c hc2
      · obtain ⟨u1, u2, u3, u4, u5, -⟩ := mem_unknown_cards hc2
        exact ⟨u1, u2, u3, u4, u5⟩
  · intro hlt hpool
    unfold Expectiminimax.sample_possible_player_hand
    dsimp only
    have hcond : (0 : Int) < (hand_size : Int) - state.player_known_cards.length ∧
        (hand_size : Int) - state.player_known_cards.length ≤
          ((Expectiminimax.unknown_cards state).length : Int) := by
      constructor <;> omega
    rw [if_pos hcond]
    have hle : ((hand_size : Int) - state.player_known_cards.length).toNat ≤
        (Expectiminimax.unknown_cards state).length := by omega
    rw [List.length_append, (hpick _ _ hle).1]
    omega

theorem C2_sample_possible_player_hand_witness :
    (∀ c ∈ Expectiminimax.sample_possible_player_hand (fun l n => l.take n)
        baseState 2,
      c ∉ baseState.opponent_hand ∧ baseState.trump_card ≠ some c ∧
      baseState.player_played ≠ some c ∧ baseState.opponent_played ≠ some c ∧
      c ∉ baseState.remaining_deck) ∧
    (baseState.player_known_cards.length < 2 →
      2 - baseState.player_known_cards.length ≤
        (Expectiminimax.unknown_cards baseState).length →
      (Expectiminimax.sample_possible_player_hand (fun l n => l.take n)
        baseState 2).length = 2) :=
  C2_sample_possible_player_hand (fun l n => l.take n) baseState 2 (by decide)
    (fun l n h => ⟨List.length_take_of_le h, fun c hc => List.mem_of_mem_take hc⟩)

/-- The C2 counterexample state: the only known card is the nine of hearts,
positively known to sit in the human's hand; everything else is empty. -/
def c2State : SState :=
  { baseState with player_known_cards := [(Rank.nine, Suit.H)] }

/-- Claim C2, counterexample: in `c2State` the known fields are mutually
disjoint and the unknown pool (23 cards) is at least as large as the number
of cards needed beyond the seeded known cards (0), yet the sample produced
for a requested hand size of 1 has 24 cards, not 1: when the seeded known
cards already reach the target, the code appends the entire unknown pool. -/
theorem C2_sample_size_counterexample :
    knownFieldsDisjoint c2State ∧
    1 - c2State.player_known_cards.length ≤
      (Expectiminimax.unknown_cards c2State).length ∧
    (Expectiminimax.sample_possible_player_hand (fun l n => l.take n)
      c2State 1).length = 24 ∧
    (Expectiminimax.sample_possible_player_hand (fun l n => l.take n)
      c2State 1).length ≠ 1 := by
  refine ⟨by decide, by decide, by decide, by decide⟩

/-! ### Helper lemmas about the chance-node enumeration -/

lemma length_filter_ne_range (n i : Nat) (h : i < n) :
    ((List.range n).filter (fun j => decide (j ≠ i))).length = n - 1 := by
  induction n with
  | zero => omega
  | succ n ih =>
      rw [List.range_succ, List.filter_append, List.length_append]
      by_cases hi : i = n
      · subst hi
        rw [List.filter_eq_self.mpr (fun a ha => by
          simp only [decide_eq_true_eq]
          exact Nat.ne_of_lt (List.mem_range.mp ha))]
        simp [List.length_range]
      · have hi2 : i < n := by omega
        rw [ih hi2]
        have : (List.filter (fun j => decide (j ≠ i)) [n]).length = 1 := by
          simp [Ne.symm hi]
        rw [this]
        omega

lemma index_pairs_length (n : Nat) : (index_pairs n).length = n * (n - 1) := by
  rw [index_pairs]
  have hlen : ∀ l : List Nat, ∀ f : Nat → List (Nat × Nat),
      (l.flatMap f).length = (l.map fun a => (f a).length).sum := by
    intro l f
    induction l with
    | nil => rfl
    | cons a as ih => simp [List.flatMap_cons, ih]
  rw [hlen]
  have hcong : (List.range n).map
      (fun i => (((List.range n).filter (fun j => decide (j ≠ i))).map
        (fun j => (i, j))).length) = (List.range n).map (fun _ => n - 1) := by
    apply List.map_eq_map_iff.mpr
    intro i hi
    rw [List.length_map]
    exact length_filter_ne_range n i (List.mem_range.mp hi)
  rw [hcong]
  simp [List.map_const']

lemma index_pairs_mem (n i j : Nat) :
    (i, j) ∈ index_pairs n ↔ i < n ∧ j < n ∧ i ≠ j := by
  simp only [index_pairs, List.mem_flatMap, List.mem_map, List.mem_filter,
    List.mem_range, Prod.mk.injEq, decide_eq_true_eq]
  constructor
  · rintro ⟨a, ha, b, ⟨hb, hne⟩, rfl, rfl⟩
    exact ⟨ha, hb, Ne.symm hne⟩
  · rintro ⟨hi, hj, hne⟩
    exact ⟨i, hi, j, ⟨hj, Ne.symm hne⟩, rfl, rfl⟩

lemma post_trick_state_deck (s : SState) (pc oc : Card) :
    (Expectiminimax.post_trick_state s pc oc).1.remaining_deck =
      s.remaining_deck := by
  unfold Expectiminimax.post_trick_state
  dsimp only
  split <;> rfl

/-- Claim C5: for every leader card, follower card and trump suit (and either
role assignment), `GamePlay.determine_trick_winner` picks the winner exactly
as the spec's rule states: a trump card beats a non-trump card
unconditionally; if both or neither card is trump and the follower's suit
differs from the leader's suit, the leader wins; otherwise the higher point
value wins, with equal values favouring the leader. -/
theorem C5_trick_winner_rule :
    ∀ (cl : Side) (trump : Suit) (pc cc : Card),
      GamePlay.determine_trick_winner cl trump pc cc =
        (let leader_card := if cl = Side.player then pc else cc
         let follower_card := if cl = Side.player then cc else pc
         let follower := if cl = Side.player then Side.computer else Side.player
         if trickWinnerSpecLeaderWins leader_card follower_card trump then cl
         else follower) := by
  decide

/-- Claim C9, counterexample: with trump clubs and the lead suit fixed to
diamonds, the king of hearts labelled leader beats the nine of spades, while
the nine of spades labelled leader beats the king of hearts — the winning
card is not invariant under swapping the leader/follower labels. -/
theorem C9_role_symmetry_counterexample :
    winnerByCardWins (Rank.king, Suit.H) (Rank.nine, Suit.S) Suit.C Suit.D =
        (Rank.king, Suit.H) ∧
    winnerByCardWins (Rank.nine, Suit.S) (Rank.king, Suit.H) Suit.C Suit.D =
        (Rank.nine, Suit.S) ∧
    winnerByCardWins (Rank.king, Suit.H) (Rank.nine, Suit.S) Suit.C Suit.D ≠
      winnerByCardWins (Rank.nine, Suit.S) (Rank.king, Suit.H) Suit.C Suit.D := by
  decide

/-- Claim C9 (amended): for distinct cards `a`, `b`, any trump suit and a
fixed lead suit, the winning card computed through
`TrickBasedGreedy.card_wins` is invariant under swapping the leader/follower
labels whenever exactly one of the two cards is trump or both cards follow
the fixed lead suit; outside those cases the label-leader always wins, so
the winner is role-dependent (see the counterexample). -/
theorem C9_role_symmetry_amended (a b : Card) (trump lead : Suit)
    (hne : a ≠ b)
    (hcase : (a.2 = trump ∧ b.2 ≠ trump) ∨ (b.2 = trump ∧ a.2 ≠ trump) ∨
      (a.2 = lead ∧ b.2 = lead)) :
    winnerByCardWins a b trump lead = winnerByCardWins b a trump lead := by
  revert hne hcase
  revert a b trump lead
  decide

theorem C9_role_symmetry_amended_witness :
    winnerByCardWins (Rank.ace, Suit.H) (Rank.king, Suit.H) Suit.S Suit.H =
      winnerByCardWins (Rank.king, Suit.H) (Rank.ace, Suit.H) Suit.S Suit.H :=
  C9_role_symmetry_amended (Rank.ace, Suit.H) (Rank.king, Suit.H) Suit.S Suit.H
    (by decide) (by decide)

/-- The C3 failing input: the trick is complete (ace of hearts led by the
human against the nine of hearts), spades are trump with the jack of spades
set aside as indicator, and exactly one card — the king of diamonds —
remains in the stock deck. -/
def c3State : SState :=
  { baseState with
    player_played := some (Rank.ace, Suit.H),
    opponent_played := some (Rank.nine, Suit.H),
    allowed_suit := some Suit.H,
    leader_card := some (Rank.ace, Suit.H),
    trump_card := some (Rank.jack, Suit.S),
    remaining_deck := [(Rank.king, Suit.D)] }

/-- Claim C3, evaluation of the code at the failing input: with exactly one
card left in the deck, the single outcome state handed to the continuation
gives the last stock card to the trick winner (the human player here, whose
hand grows to one card), while the trick loser's hand stays empty and the
trump indicator stays set aside — the loser never receives the trump
indicator card. -/
theorem C3_one_card_draw_code_eval :
    Expectiminimax.resolve_trick_with_chance
        (fun o _ => (o.player_hand.length : ℚ)) c3State = 1 ∧
    Expectiminimax.resolve_trick_with_chance
        (fun o _ => (o.opponent_hand.length : ℚ)) c3State = 0 ∧
    Expectiminimax.resolve_trick_with_chance
        (fun o _ => if o.trump_card = some (Rank.jack, Suit.S) then 1 else 0)
        c3State = 1 := by
  refine ⟨by decide, by decide, by decide⟩

/-- The C4 two-card scenario: trick complete (nine of hearts led by the human
against the ace of trumps), and exactly the king of diamonds and queen of
clubs remain in the stock deck. -/
def c4State : SState :=
  { baseState with
    player_played := some (Rank.nine, Suit.H),
    opponent_played := some (Rank.ace, Suit.S),
    allowed_suit := some Suit.H,
    leader_card := some (Rank.nine, Suit.H),
    remaining_deck := [(Rank.king, Suit.D), (Rank.queen, Suit.C)] }

/-- First enumerated outcome of the C4 scenario: the AI wins the trick and
draws the king of diamonds, the human draws the queen of clubs. -/
def c4Out0 : SState :=
  { baseState with
    player_hand := [(Rank.queen, Suit.C)],
    opponent_hand := [(Rank.king, Suit.D)],
    current_leader := Actor.opponent,
    opponent_round_points := 11,
    remaining_deck := [] }

/-- Second enumerated outcome of the C4 scenario: the AI draws the queen of
clubs, the human draws the king of diamonds. -/
def c4Out1 : SState :=
  { baseState with
    player_hand := [(Rank.king, Suit.D)],
    opponent_hand := [(Rank.queen, Suit.C)],
    current_leader := Actor.opponent,
    opponent_round_points := 11,
    remaining_deck := [] }

/-- Claim C4: with a completed trick and `n ≥ 2` cards left in the deck, the
chance node enumerates the outcomes indexed by every ordered pair of
distinct deck positions (first card to the trick winner, second to the
loser), exactly `n * (n - 1)` of them, and returns their values' uniform
average (the sum divided by `n * (n - 1)`); in the concrete two-card
scenario the value is `1/2` times each of the two outcomes' values. -/
theorem C4_chance_node_enumeration (val : SState → Bool → ℚ) (state : SState)
    (pc oc : Card) (hp : state.player_played = some pc)
    (ho : state.opponent_played = some oc)
    (hn : 2 ≤ state.remaining_deck.length) :
    (∀ i j : Nat, (i, j) ∈ index_pairs state.remaining_deck.length ↔
      i < state.remaining_deck.length ∧ j < state.remaining_deck.length ∧
        i ≠ j) ∧
    (Expectiminimax.chance_outcome_states
        (Expectiminimax.post_trick_state state pc oc).1
        (Expectiminimax.post_trick_state state pc oc).2).length =
      state.remaining_deck.length * (state.remaining_deck.length - 1) ∧
    Expectiminimax.resolve_trick_with_chance val state =
      ((Expectiminimax.chance_outcome_states
          (Expectiminimax.post_trick_state state pc oc).1
          (Expectiminimax.post_trick_state state pc oc).2).map
        (fun o => val o (decide (o.current_leader = Actor.opponent)))).sum /
        ((state.remaining_deck.length * (state.remaining_deck.length - 1) :
          Nat) : ℚ) ∧
    Expectiminimax.resolve_trick_with_chance val c4State =
      (1 / 2) * val c4Out0 true + (1 / 2) * val c4Out1 true := by
  have hlen : (Expectiminimax.chance_outcome_states
      (Expectiminimax.post_trick_state state pc oc).1
      (Expectiminimax.post_trick_state state pc oc).2).length =
      state.remaining_deck.length * (state.remaining_deck.length - 1) := by
    rw [Expectiminimax.chance_outcome_states]
    rw [List.length_map, post_trick_state_deck, index_pairs_length]
  refine ⟨fun i j => index_pairs_mem _ i j, hlen, ?_, ?_⟩
  · have hne : state.remaining_deck ≠ [] := by
      intro hnil
      rw [hnil] at hn
      simp at hn
    simp only [Expectiminimax.resolve_trick_with_chance, hp, ho]
    rw [post_trick_state_deck, if_pos hne, if_pos hn]
    have houtne : ((Expectiminimax.chance_outcome_states
        (Expectiminimax.post_trick_state state pc oc).1
        (Expectiminimax.post_trick_state state pc oc).2).map
          (fun o => val o (decide (o.current_leader = Actor.opponent)))) ≠ [] := by
      intro hnil
      have := congrArg List.length hnil
      rw [List.length_map, hlen] at this
      simp only [List.length_nil] at this
      rcases Nat.mul_eq_zero.mp this with h1 | h1 <;> omega
    rw [if_pos houtne, List.length_map, hlen]
  · have h0 : Expectiminimax.resolve_trick_with_chance val c4State =
        (val c4Out0 true + (val c4Out1 true + 0)) / ((2 : ℕ) : ℚ) := rfl
    rw [h0]
    push_cast
    ring

/-- A concrete continuation used by the C4 witness: it reads off the AI's
round points of the outcome state. -/
def c4Val (o : SState) : Bool → ℚ := fun _ => (o.opponent_round_points : ℚ)

theorem C4_chance_node_enumeration_witness :
    (∀ i j : Nat, (i, j) ∈ index_pairs c4State.remaining_deck.length ↔
      i < c4State.remaining_deck.length ∧ j < c4State.remaining_deck.length ∧
        i ≠ j) ∧
    (Expectiminimax.chance_outcome_states
        (Expectiminimax.post_trick_state c4State (Rank.nine, Suit.H) (Rank.ace, Suit.S)).1
        (Expectiminimax.post_trick_state c4State (Rank.nine, Suit.H) (Rank.ace, Suit.S)).2).length =
      c4State.remaining_deck.length * (c4State.remaining_deck.length - 1) ∧
    Expectiminimax.resolve_trick_with_chance c4Val c4State =
      ((Expectiminimax.chance_outcome_states
          (Expectiminimax.post_trick_state c4State (Rank.nine, Suit.H) (Rank.ace, Suit.S)).1
          (Expectiminimax.post_trick_state c4State (Rank.nine, Suit.H) (Rank.ace, Suit.S)).2).map
        (fun o => c4Val o (decide (o.current_leader = Actor.opponent)))).sum /
        ((c4State.remaining_deck.length * (c4State.remaining_deck.length - 1) :
          Nat) : ℚ) ∧
    Expectiminimax.resolve_trick_with_chance c4Val c4State =
      (1 / 2) * c4Val c4Out0 true + (1 / 2) * c4Val c4Out1 true :=
  C4_chance_node_enumeration c4Val c4State (Rank.nine, Suit.H)
    (Rank.ace, Suit.S) (by decide) (by decide) (by decide)
